import Mathlib

/-!
# Loan amortization engine: a shallow embedding

This file embeds the calculation core of `src/app.py` (the amortization
schedule loop, lines 31-105) in Lean 4 and proves the specification's
claims about it.  The Python code computes with IEEE floats; the embedding
uses exact rational arithmetic (`ℚ`), which represents the algorithm's
intended real-number semantics.  Division is ℚ-division (total, with
`x / 0 = 0`).
-/

namespace LoanCalc

/-- One row of the amortization schedule, mirroring the dictionary appended
at `src/app.py` lines 79-86: `Month`, `Monthly Payment`, `Principal`,
`Interest`, `Yearly Extra Payment`, `Remaining Balance`. -/
structure Row where
  month : ℕ
  monthlyPayment : ℚ
  principal : ℚ
  interest : ℚ
  extraPayment : ℚ
  remainingBalance : ℚ
deriving DecidableEq, Repr

/-- `monthly_rate = (annual_interest_rate / 100) / 12` (src/app.py line 33). -/
def monthlyRateOf (annualRate : ℚ) : ℚ :=
  annualRate / 100 / 12

/-- The nominal level payment (src/app.py lines 36-39): the PMT formula for a
positive monthly rate, straight-line `loan_amount / period_months` otherwise. -/
def monthlyPaymentOf (loanAmount monthlyRate : ℚ) (periodMonths : ℕ) : ℚ :=
  if 0 < monthlyRate then
    loanAmount * (monthlyRate * (1 + monthlyRate) ^ periodMonths) /
      ((1 + monthlyRate) ^ periodMonths - 1)
  else
    loanAmount / (periodMonths : ℚ)

/-- `extra_payment_amount = loan_amount * (yearly_extra_payment_percent / 100)`
(src/app.py line 41). -/
def extraPaymentAmountOf (loanAmount yearlyExtraPercent : ℚ) : ℚ :=
  loanAmount * (yearlyExtraPercent / 100)

/-- The body of one iteration of the amortization loop (src/app.py lines
51-86): charge interest, derive the principal portion, apply the final-month
clamp, subtract the principal, apply the yearly extra payment, and build the
row.  The returned row also carries the loop's updated state: its
`monthlyPayment` field is the (possibly clamped) `monthly_payment` variable
and its `remainingBalance` field is the post-extra-payment `balance`. -/
def loopStep (monthlyRate extraPaymentAmount : ℚ) (month : ℕ)
    (monthlyPayment balance : ℚ) : Row :=
  let interest := balance * monthlyRate
  let principalPayment := monthlyPayment - interest
  let principalPayment' := if balance < principalPayment then balance else principalPayment
  let monthlyPayment' :=
    if balance < principalPayment then interest + principalPayment' else monthlyPayment
  let balance1 := balance - principalPayment'
  if month % 12 = 0 ∧ 0 < extraPaymentAmount ∧ 0 < balance1 then
    if balance1 < extraPaymentAmount then
      ⟨month, monthlyPayment', principalPayment', interest, balance1, 0⟩
    else
      ⟨month, monthlyPayment', principalPayment', interest, extraPaymentAmount,
        balance1 - extraPaymentAmount⟩
  else
    ⟨month, monthlyPayment', principalPayment', interest, 0, balance1⟩

/-- The amortization loop (src/app.py lines 44-89).  `fuel` counts the months
remaining in `range(1, period_months + 1200)`; the other arguments mirror the
Python state variables `month`, `monthly_payment`, `balance`, `total_interest`,
`months_count`, `schedule_data` (accumulated in reverse).  Returns
`(schedule_data, total_interest, months_count)`. -/
def amortLoop (monthlyRate extraPaymentAmount : ℚ) :
    ℕ → ℕ → ℚ → ℚ → ℚ → ℕ → List Row → List Row × ℚ × ℕ
  | 0, _month, _pay, _bal, totalInterest, monthsCount, acc =>
      (acc.reverse, totalInterest, monthsCount)
  | fuel + 1, month, monthlyPayment, balance, totalInterest, monthsCount, acc =>
      let row := loopStep monthlyRate extraPaymentAmount month monthlyPayment balance
      let totalInterest' := totalInterest + row.interest
      let acc' := row :: acc
      if row.remainingBalance ≤ 0 then (acc'.reverse, totalInterest', monthsCount + 1)
      else amortLoop monthlyRate extraPaymentAmount fuel (month + 1)
        row.monthlyPayment row.remainingBalance totalInterest' (monthsCount + 1) acc'

/-- The amortization engine (src/app.py lines 31-89): derives the monthly
rate, nominal payment and extra-payment amount, then runs the loop starting
at month 1 with `balance = loan_amount`.  `range(1, period_months + 1200)`
yields the months `1 .. period_months + 1199`, hence the fuel. -/
def compute (loanAmount annualRate : ℚ) (periodMonths : ℕ)
    (yearlyExtraPercent : ℚ) : List Row × ℚ × ℕ :=
  amortLoop (monthlyRateOf annualRate)
    (extraPaymentAmountOf loanAmount yearlyExtraPercent)
    (periodMonths + 1199) 1
    (monthlyPaymentOf loanAmount (monthlyRateOf annualRate) periodMonths)
    loanAmount 0 0 []

/-- `years_saved` (src/app.py lines 102-105): the difference of the nominal
and actual repayment times in years, clamped to zero when negative. -/
def yearsSavedOf (periodMonths monthsCount : ℕ) : ℚ :=
  let v := (periodMonths : ℚ) / 12 - (monthsCount : ℚ) / 12
  if v < 0 then 0 else v

/-- The ideal balance after `k` scheduled payments of `A` at monthly rate `r`
with no extra payments: `gBal r A P 0 = P` and each month the balance accrues
interest and is reduced by the payment. -/
def gBal (r A P : ℚ) : ℕ → ℚ
  | 0 => P
  | k + 1 => (1 + r) * gBal r A P k - A

/-! ### Basic facts about one loop iteration -/

theorem loopStep_month (r x : ℚ) (m : ℕ) (pay bal : ℚ) :
    (loopStep r x m pay bal).month = m := by
  simp only [loopStep]
  split_ifs <;> rfl

theorem loopStep_interest (r x : ℚ) (m : ℕ) (pay bal : ℚ) :
    (loopStep r x m pay bal).interest = bal * r := by
  simp only [loopStep]
  split_ifs <;> rfl

/-- The clamp at src/app.py lines 61-63 never breaks the per-row identity
`Principal + Interest = Monthly Payment`. -/
theorem loopStep_principal_add_interest (r x : ℚ) (m : ℕ) (pay bal : ℚ) :
    (loopStep r x m pay bal).principal + (loopStep r x m pay bal).interest
      = (loopStep r x m pay bal).monthlyPayment := by
  simp only [loopStep]
  split_ifs <;> dsimp only <;> ring

/-- When the final-month clamp fires (src/app.py lines 61-63), the balance
after the scheduled payment is exactly 0, the extra-payment step is skipped,
and the emitted row's remaining balance is exactly 0. -/
theorem loopStep_clamp (r x : ℚ) (m : ℕ) (pay bal : ℚ)
    (h : bal < pay - bal * r) :
    (loopStep r x m pay bal).remainingBalance = 0 ∧
      (loopStep r x m pay bal).extraPayment = 0 := by
  simp [loopStep, h]

/-- When the clamp does not fire, the `monthly_payment` variable is left
unchanged by the iteration. -/
theorem loopStep_payment_of_not_clamp (r x : ℚ) (m : ℕ) (pay bal : ℚ)
    (h : ¬ bal < pay - bal * r) :
    (loopStep r x m pay bal).monthlyPayment = pay := by
  simp only [loopStep]
  split_ifs <;> rfl

/-- An iteration that leaves a positive balance did not fire the clamp. -/
theorem loopStep_not_clamp_of_pos (r x : ℚ) (m : ℕ) (pay bal : ℚ)
    (h : 0 < (loopStep r x m pay bal).remainingBalance) :
    ¬ bal < pay - bal * r := by
  intro hc
  have := (loopStep_clamp r x m pay bal hc).1
  rw [this] at h
  exact lt_irrefl 0 h

/-- When the clamp does not fire, the balance after the scheduled payment is
`bal - (pay - bal * r)`, and the row's remaining balance differs from it by
the extra payment (which is subtracted from it in every branch). -/
theorem loopStep_balance_add_extra (r x : ℚ) (m : ℕ) (pay bal : ℚ) :
    (loopStep r x m pay bal).remainingBalance + (loopStep r x m pay bal).extraPayment
      = bal - (if bal < pay - bal * r then bal else pay - bal * r) := by
  simp only [loopStep]
  split_ifs <;> dsimp only <;> ring

/-- The extra-payment step (src/app.py lines 67-76), characterized through
the emitted row: it applies exactly when the month is a multiple of 12, the
extra amount is positive and the post-scheduled-payment balance (which equals
`remainingBalance + extraPayment`) is positive; it then pays
`min extraAmount balance`, and otherwise the row's extra payment is 0. -/
theorem loopStep_extraPayment_eq (r x : ℚ) (m : ℕ) (pay bal : ℚ) :
    (loopStep r x m pay bal).extraPayment
      = if m % 12 = 0 ∧ 0 < x ∧
            0 < bal - (if bal < pay - bal * r then bal else pay - bal * r) then
          min x (bal - (if bal < pay - bal * r then bal else pay - bal * r))
        else 0 := by
  simp only [loopStep]
  split_ifs with h1 h2 h3 h2 h3 <;>
    dsimp only <;>
    first
      | rfl
      | exact (min_eq_right (le_of_lt h3)).symm
      | exact (min_eq_left (not_lt.mp h3)).symm

/-- The extra-payment step (src/app.py lines 67-76), characterized through
the emitted row: it applies exactly when the month is a multiple of 12, the
extra amount is positive and the post-scheduled-payment balance (which equals
`remainingBalance + extraPayment`) is positive; it then pays
`min extraAmount balance`, and otherwise the row's extra payment is 0. -/
theorem loopStep_extra (r x : ℚ) (m : ℕ) (pay bal : ℚ) :
    (loopStep r x m pay bal).extraPayment
      = if m % 12 = 0 ∧ 0 < x ∧
            0 < (loopStep r x m pay bal).remainingBalance
                  + (loopStep r x m pay bal).extraPayment then
          min x ((loopStep r x m pay bal).remainingBalance
                  + (loopStep r x m pay bal).extraPayment)
        else 0 := by
  rw [loopStep_balance_add_extra]
  exact loopStep_extraPayment_eq r x m pay bal

/-- The loop never drives the balance negative: in every branch of an
iteration the new balance is `≥ 0`. -/
theorem loopStep_balance_nonneg (r x : ℚ) (m : ℕ) (pay bal : ℚ) :
    0 ≤ (loopStep r x m pay bal).remainingBalance := by
  simp only [loopStep]
  split_ifs <;> dsimp only <;> linarith

/-- Bounds for one iteration: if the balance is non-negative and the payment
covers the interest, the new balance does not exceed the old one. -/
theorem loopStep_balance_bounds (r x : ℚ) (m : ℕ) (pay bal : ℚ)
    (hbal : 0 ≤ bal) (hpay : r * bal ≤ pay) :
    0 ≤ (loopStep r x m pay bal).remainingBalance ∧
      (loopStep r x m pay bal).remainingBalance ≤ bal := by
  simp only [loopStep]
  split_ifs with h1 h2 h3 h2 h3 <;> dsimp only <;> constructor <;> linarith

/-- If the clamp does not fire, the new balance accrues interest and is
reduced by the payment: it never exceeds `(1 + r) * bal - pay`. -/
theorem loopStep_balance_le_of_not_clamp (r x : ℚ) (m : ℕ) (pay bal : ℚ)
    (h : ¬ bal < pay - bal * r) :
    (loopStep r x m pay bal).remainingBalance ≤ (1 + r) * bal - pay := by
  simp only [loopStep]
  split_ifs with h2 h3 <;> dsimp only <;> linarith

/-! ### The ideal no-extra-payment balance trajectory -/

theorem r_mul_gBal (r A P : ℚ) : ∀ k : ℕ,
    r * gBal r A P k = r * P * (1 + r) ^ k - A * ((1 + r) ^ k - 1)
  | 0 => by simp [gBal]
  | k + 1 => by
    have ih := r_mul_gBal r A P k
    simp only [gBal, pow_succ]
    ring_nf
    ring_nf at ih
    linear_combination (1 + r) * ih

theorem gBal_zero_rate (A P : ℚ) : ∀ k : ℕ, gBal 0 A P k = P - k * A
  | 0 => by simp [gBal]
  | k + 1 => by
    have ih := gBal_zero_rate A P k
    simp only [gBal, ih]
    push_cast
    ring

theorem gBal_succ_neg (r A P : ℚ) (hr : 0 ≤ r) (hA : 0 < A) (k : ℕ)
    (h : gBal r A P k ≤ 0) : gBal r A P (k + 1) < 0 := by
  have h1 : 0 ≤ (1 + r) * (-gBal r A P k) := by
    apply mul_nonneg (by linarith) (by linarith)
  simp only [gBal]
  nlinarith

theorem gBal_neg_add (r A P : ℚ) (hr : 0 ≤ r) (hA : 0 < A) :
    ∀ k d : ℕ, gBal r A P k ≤ 0 → gBal r A P (k + d + 1) < 0
  | k, 0, h => gBal_succ_neg r A P hr hA k h
  | k, d + 1, h => by
    have hd := gBal_neg_add r A P hr hA k d h
    exact gBal_succ_neg r A P hr hA (k + d + 1) hd.le

/-- If the ideal trajectory hits exactly 0 at month `n`, it is strictly
positive at every earlier month: once non-positive it only gets more
negative, which would contradict `gBal r A P n = 0`. -/
theorem gBal_pos_of_lt (r A P : ℚ) (n : ℕ) (hr : 0 ≤ r) (hA : 0 < A)
    (hn : gBal r A P n = 0) : ∀ k, k < n → 0 < gBal r A P k := by
  intro k hk
  by_contra hcon
  push_neg at hcon
  have h1 : gBal r A P (k + (n - k - 1) + 1) < 0 :=
    gBal_neg_add r A P hr hA k (n - k - 1) hcon
  rw [show k + (n - k - 1) + 1 = n from by omega, hn] at h1
  exact lt_irrefl 0 h1

/-! ### The nominal level payment -/

theorem monthlyPaymentOf_pos (P r : ℚ) (n : ℕ) (hP : 0 < P) (hr : 0 ≤ r)
    (hn : 0 < n) : 0 < monthlyPaymentOf P r n := by
  unfold monthlyPaymentOf
  split_ifs with h
  · have hpow : 1 < (1 + r) ^ n := one_lt_pow₀ (by linarith) hn.ne'
    have hD : 0 < (1 + r) ^ n - 1 := by linarith
    have hnum : 0 < P * (r * (1 + r) ^ n) :=
      mul_pos hP (mul_pos h (by positivity))
    exact div_pos hnum hD
  · have hn' : (0 : ℚ) < n := by exact_mod_cast hn
    exact div_pos hP hn'

theorem monthlyPaymentOf_ge (P r : ℚ) (n : ℕ) (hP : 0 < P) (hr : 0 ≤ r)
    (hn : 0 < n) : r * P ≤ monthlyPaymentOf P r n := by
  unfold monthlyPaymentOf
  split_ifs with h
  · have hpow : 1 < (1 + r) ^ n := one_lt_pow₀ (by linarith) hn.ne'
    have hD : 0 < (1 + r) ^ n - 1 := by linarith
    rw [le_div_iff₀ hD]
    have hrP : 0 ≤ r * P := mul_nonneg hr hP.le
    nlinarith
  · have hr0 : r = 0 := le_antisymm (not_lt.mp h) hr
    subst hr0
    have hn' : (0 : ℚ) ≤ n := Nat.cast_nonneg n
    simpa using div_nonneg hP.le hn'

/-- The nominal payment exactly pays off the ideal trajectory in `n` months:
`gBal r A P n = 0` for `A = monthlyPaymentOf P r n`. -/
theorem gBal_payment_eq_zero (P r : ℚ) (n : ℕ) (hr : 0 ≤ r) (hn : 0 < n) :
    gBal r (monthlyPaymentOf P r n) P n = 0 := by
  unfold monthlyPaymentOf
  split_ifs with h
  · have hpow : 1 < (1 + r) ^ n := one_lt_pow₀ (by linarith) hn.ne'
    have hD : (1 + r) ^ n - 1 ≠ 0 := by linarith
    have key := r_mul_gBal r (P * (r * (1 + r) ^ n) / ((1 + r) ^ n - 1)) P n
    have hAD : P * (r * (1 + r) ^ n) / ((1 + r) ^ n - 1) * ((1 + r) ^ n - 1)
        = P * (r * (1 + r) ^ n) := div_mul_cancel₀ _ hD
    have hz : r * gBal r (P * (r * (1 + r) ^ n) / ((1 + r) ^ n - 1)) P n = 0 := by
      rw [key]
      linear_combination -hAD
    exact (mul_eq_zero.mp hz).resolve_left h.ne'
  · have hr0 : r = 0 := le_antisymm (not_lt.mp h) hr
    subst hr0
    rw [gBal_zero_rate]
    have hn' : (n : ℚ) ≠ 0 := by exact_mod_cast hn.ne'
    field_simp

/-! ### Unfolding the loop -/

theorem amortLoop_zero (r x : ℚ) (m : ℕ) (pay bal ti : ℚ) (mc : ℕ)
    (acc : List Row) : amortLoop r x 0 m pay bal ti mc acc = (acc.reverse, ti, mc) :=
  rfl

theorem amortLoop_succ_stop (r x : ℚ) (fuel m : ℕ) (pay bal ti : ℚ) (mc : ℕ)
    (acc : List Row) (h : (loopStep r x m pay bal).remainingBalance ≤ 0) :
    amortLoop r x (fuel + 1) m pay bal ti mc acc
      = ((loopStep r x m pay bal :: acc).reverse,
          ti + (loopStep r x m pay bal).interest, mc + 1) := by
  simp only [amortLoop]
  rw [if_pos h]

theorem amortLoop_succ_continue (r x : ℚ) (fuel m : ℕ) (pay bal ti : ℚ)
    (mc : ℕ) (acc : List Row)
    (h : ¬ (loopStep r x m pay bal).remainingBalance ≤ 0) :
    amortLoop r x (fuel + 1) m pay bal ti mc acc
      = amortLoop r x fuel (m + 1) (loopStep r x m pay bal).monthlyPayment
          (loopStep r x m pay bal).remainingBalance
          (ti + (loopStep r x m pay bal).interest) (mc + 1)
          (loopStep r x m pay bal :: acc) := by
  simp only [amortLoop]
  rw [if_neg h]

/-- Structural facts about a run of the loop: the output schedule extends the
accumulator by the newly emitted rows, `total_interest` grows by the sum of
their `Interest` fields, `months_count` grows by their number, and at most
`fuel` rows are emitted. -/
theorem amortLoop_shape (r x : ℚ) :
    ∀ (fuel m : ℕ) (pay bal ti : ℚ) (mc : ℕ) (acc : List Row),
    ∃ new : List Row,
      (amortLoop r x fuel m pay bal ti mc acc).1 = acc.reverse ++ new ∧
      (amortLoop r x fuel m pay bal ti mc acc).2.1
        = ti + (new.map Row.interest).sum ∧
      (amortLoop r x fuel m pay bal ti mc acc).2.2 = mc + new.length ∧
      new.length ≤ fuel
  | 0, m, pay, bal, ti, mc, acc => ⟨[], by simp [amortLoop_zero]⟩
  | fuel + 1, m, pay, bal, ti, mc, acc => by
    by_cases h : (loopStep r x m pay bal).remainingBalance ≤ 0
    · refine ⟨[loopStep r x m pay bal], ?_, ?_, ?_, ?_⟩
      · rw [amortLoop_succ_stop r x fuel m pay bal ti mc acc h]
        simp
      · rw [amortLoop_succ_stop r x fuel m pay bal ti mc acc h]
        simp
      · rw [amortLoop_succ_stop r x fuel m pay bal ti mc acc h]
        simp
      · simp
    · obtain ⟨new, h1, h2, h3, h4⟩ :=
        amortLoop_shape r x fuel (m + 1) (loopStep r x m pay bal).monthlyPayment
          (loopStep r x m pay bal).remainingBalance
          (ti + (loopStep r x m pay bal).interest) (mc + 1)
          (loopStep r x m pay bal :: acc)
      refine ⟨loopStep r x m pay bal :: new, ?_, ?_, ?_, ?_⟩
      · rw [amortLoop_succ_continue r x fuel m pay bal ti mc acc h, h1]
        simp
      · rw [amortLoop_succ_continue r x fuel m pay bal ti mc acc h, h2]
        simp only [List.map_cons, List.sum_cons]
        ring
      · rw [amortLoop_succ_continue r x fuel m pay bal ti mc acc h, h3]
        simp only [List.length_cons]
        omega
      · simp only [List.length_cons]
        omega

/-- Every row the loop emits comes from `loopStep`: any property of all
possible `loopStep` outputs holds for every row of the schedule. -/
theorem amortLoop_mem (r x : ℚ) (Q : Row → Prop)
    (hQ : ∀ (m : ℕ) (pay bal : ℚ), Q (loopStep r x m pay bal)) :
    ∀ (fuel m : ℕ) (pay bal ti : ℚ) (mc : ℕ) (acc : List Row),
      (∀ row ∈ acc, Q row) →
      ∀ row ∈ (amortLoop r x fuel m pay bal ti mc acc).1, Q row
  | 0, m, pay, bal, ti, mc, acc, hacc, row, hrow => by
    rw [amortLoop_zero] at hrow
    exact hacc row (List.mem_reverse.mp hrow)
  | fuel + 1, m, pay, bal, ti, mc, acc, hacc, row, hrow => by
    by_cases h : (loopStep r x m pay bal).remainingBalance ≤ 0
    · rw [amortLoop_succ_stop r x fuel m pay bal ti mc acc h] at hrow
      rcases List.mem_cons.mp (List.mem_reverse.mp hrow) with hrow | hrow
      · subst hrow
        exact hQ m pay bal
      · exact hacc row hrow
    · rw [amortLoop_succ_continue r x fuel m pay bal ti mc acc h] at hrow
      refine amortLoop_mem r x Q hQ fuel (m + 1) _ _ _ _ _ ?_ row hrow
      intro row' hrow'
      rcases List.mem_cons.mp hrow' with h' | h'
      · subst h'
        exact hQ m pay bal
      · exact hacc row' h'

/-- Every row of the schedule except the last has a strictly positive
remaining balance: the loop breaks the moment the balance reaches 0
(src/app.py lines 88-89). -/
theorem amortLoop_dropLast_pos (r x : ℚ) :
    ∀ (fuel m : ℕ) (pay bal ti : ℚ) (mc : ℕ) (acc : List Row),
      (∀ row ∈ acc, 0 < row.remainingBalance) →
      ∀ row ∈ (amortLoop r x fuel m pay bal ti mc acc).1.dropLast,
        0 < row.remainingBalance
  | 0, m, pay, bal, ti, mc, acc, hacc, row, hrow => by
    rw [amortLoop_zero] at hrow
    exact hacc row (List.mem_reverse.mp (List.dropLast_subset _ hrow))
  | fuel + 1, m, pay, bal, ti, mc, acc, hacc, row, hrow => by
    by_cases h : (loopStep r x m pay bal).remainingBalance ≤ 0
    · rw [amortLoop_succ_stop r x fuel m pay bal ti mc acc h,
        List.reverse_cons, List.dropLast_concat] at hrow
      exact hacc row (List.mem_reverse.mp hrow)
    · rw [amortLoop_succ_continue r x fuel m pay bal ti mc acc h] at hrow
      refine amortLoop_dropLast_pos r x fuel (m + 1) _ _ _ _ _ ?_ row hrow
      intro row' hrow'
      rcases List.mem_cons.mp hrow' with h' | h'
      · subst h'
        exact not_le.mp h
      · exact hacc row' h'

/-- As long as the loop keeps iterating, the `monthly_payment` variable keeps
its initial (nominal) value `A`: the clamp at src/app.py lines 61-63 can
only rewrite it on the iteration that stops the loop, so every row except
possibly the last records the nominal payment. -/
theorem amortLoop_nominal (r x A : ℚ) :
    ∀ (fuel m : ℕ) (bal ti : ℚ) (mc : ℕ) (acc : List Row),
      (∀ row ∈ acc, row.monthlyPayment = A) →
      ∀ row ∈ (amortLoop r x fuel m A bal ti mc acc).1.dropLast,
        row.monthlyPayment = A
  | 0, m, bal, ti, mc, acc, hacc, row, hrow => by
    rw [amortLoop_zero] at hrow
    exact hacc row (List.mem_reverse.mp (List.dropLast_subset _ hrow))
  | fuel + 1, m, bal, ti, mc, acc, hacc, row, hrow => by
    by_cases h : (loopStep r x m A bal).remainingBalance ≤ 0
    · rw [amortLoop_succ_stop r x fuel m A bal ti mc acc h,
        List.reverse_cons, List.dropLast_concat] at hrow
      exact hacc row (List.mem_reverse.mp hrow)
    · rw [amortLoop_succ_continue r x fuel m A bal ti mc acc h] at hrow
      have hnc : ¬ bal < A - bal * r :=
        loopStep_not_clamp_of_pos r x m A bal (not_le.mp h)
      have hpay := loopStep_payment_of_not_clamp r x m A bal hnc
      rw [hpay] at hrow
      refine amortLoop_nominal r x A fuel (m + 1) _ _ _ _ ?_ row hrow
      intro row' hrow'
      rcases List.mem_cons.mp hrow' with h' | h'
      · subst h'
        exact hpay
      · exact hacc row' h'

/-- The balance sequence along a run is non-increasing, provided the rate is
non-negative and the payment covers the interest on the current balance. -/
theorem amortLoop_chain (r x : ℚ) (hr : 0 ≤ r) :
    ∀ (fuel m : ℕ) (pay bal ti : ℚ) (mc : ℕ) (acc : List Row),
      0 ≤ bal → r * bal ≤ pay →
      ∃ new : List Row,
        (amortLoop r x fuel m pay bal ti mc acc).1 = acc.reverse ++ new ∧
        List.Chain (fun a b => b ≤ a) bal (new.map Row.remainingBalance)
  | 0, m, pay, bal, ti, mc, acc, _, _ =>
    ⟨[], by simp [amortLoop_zero], List.Chain.nil⟩
  | fuel + 1, m, pay, bal, ti, mc, acc, hbal, hpay => by
    obtain ⟨hb0, hble⟩ := loopStep_balance_bounds r x m pay bal hbal hpay
    by_cases h : (loopStep r x m pay bal).remainingBalance ≤ 0
    · refine ⟨[loopStep r x m pay bal], ?_, ?_⟩
      · rw [amortLoop_succ_stop r x fuel m pay bal ti mc acc h]
        simp
      · exact List.Chain.cons hble List.Chain.nil
    · have hnc : ¬ bal < pay - bal * r :=
        loopStep_not_clamp_of_pos r x m pay bal (not_le.mp h)
      have hpay' := loopStep_payment_of_not_clamp r x m pay bal hnc
      have hr2 : r * (loopStep r x m pay bal).remainingBalance
          ≤ (loopStep r x m pay bal).monthlyPayment := by
        rw [hpay']
        exact le_trans (mul_le_mul_of_nonneg_left hble hr) hpay
      obtain ⟨new, h1, h2⟩ :=
        amortLoop_chain r x hr fuel (m + 1) (loopStep r x m pay bal).monthlyPayment
          (loopStep r x m pay bal).remainingBalance
          (ti + (loopStep r x m pay bal).interest) (mc + 1)
          (loopStep r x m pay bal :: acc) hb0 hr2
      refine ⟨loopStep r x m pay bal :: new, ?_, ?_⟩
      · rw [amortLoop_succ_continue r x fuel m pay bal ti mc acc h, h1]
        simp
      · exact List.Chain.cons hble h2

/-- A "plain" iteration — no positive extra amount, clamp does not fire —
charges interest, pays the nominal amount and leaves the payment unchanged. -/
theorem loopStep_plain (r x : ℚ) (m : ℕ) (pay bal : ℚ)
    (hx : ¬ 0 < x) (hnc : ¬ bal < pay - bal * r) :
    loopStep r x m pay bal
      = ⟨m, pay, pay - bal * r, bal * r, 0, bal - (pay - bal * r)⟩ := by
  simp [loopStep, hx, hnc]

/-- Convergence: if the balance on entering month `k + 1` is positive and at
most the ideal trajectory's value `gBal r A P k`, and the trajectory reaches
exactly 0 at month `n`, then (with enough fuel) the run emits at least one
row and the last emitted row's remaining balance is exactly 0. -/
theorem amortLoop_payoff (r x A P : ℚ) (n : ℕ) (hr : 0 ≤ r) (hA : 0 < A)
    (hg : gBal r A P n = 0) :
    ∀ (fuel k : ℕ) (bal ti : ℚ) (mc : ℕ) (acc : List Row),
      k < n → n - k ≤ fuel → 0 < bal → bal ≤ gBal r A P k →
      ∃ new : List Row,
        (amortLoop r x fuel (k + 1) A bal ti mc acc).1 = acc.reverse ++ new ∧
        new ≠ [] ∧
        ∀ hne : new ≠ [], (new.getLast hne).remainingBalance = 0
  | 0, k, bal, ti, mc, acc, hk, hfuel, _, _ => by omega
  | fuel + 1, k, bal, ti, mc, acc, hk, hfuel, hbal, hble => by
    by_cases h : (loopStep r x (k + 1) A bal).remainingBalance ≤ 0
    · refine ⟨[loopStep r x (k + 1) A bal], ?_, by simp, ?_⟩
      · rw [amortLoop_succ_stop r x fuel (k + 1) A bal ti mc acc h]
        simp
      · intro hne
        simp only [List.getLast_singleton]
        exact le_antisymm h (loopStep_balance_nonneg r x (k + 1) A bal)
    · have hpos := not_le.mp h
      have hnc : ¬ bal < A - bal * r :=
        loopStep_not_clamp_of_pos r x (k + 1) A bal hpos
      have hpay' := loopStep_payment_of_not_clamp r x (k + 1) A bal hnc
      have hle1 : (loopStep r x (k + 1) A bal).remainingBalance
          ≤ gBal r A P (k + 1) := by
        have h1 := loopStep_balance_le_of_not_clamp r x (k + 1) A bal hnc
        have h2 : (1 + r) * bal ≤ (1 + r) * gBal r A P k :=
          mul_le_mul_of_nonneg_left hble (by linarith)
        have h3 : gBal r A P (k + 1) = (1 + r) * gBal r A P k - A := rfl
        linarith
      have hk1 : k + 1 < n := by
        rcases lt_or_eq_of_le (Nat.succ_le_of_lt hk) with h' | h'
        · exact h'
        · exfalso
          have hz : gBal r A P (k + 1) = 0 := by
            rw [show k + 1 = n from h']
            exact hg
          linarith
      obtain ⟨new, h1, h2, h3⟩ :=
        amortLoop_payoff r x A P n hr hA hg fuel (k + 1)
          (loopStep r x (k + 1) A bal).remainingBalance
          (ti + (loopStep r x (k + 1) A bal).interest) (mc + 1)
          (loopStep r x (k + 1) A bal :: acc) hk1 (by omega) hpos hle1
      refine ⟨loopStep r x (k + 1) A bal :: new, ?_, by simp, ?_⟩
      · rw [amortLoop_succ_continue r x fuel (k + 1) A bal ti mc acc h, hpay', h1]
        simp
      · intro hne
        rw [List.getLast_cons h2]
        exact h3 h2

/-- With no (positive) extra amount, the loop tracks the ideal trajectory
exactly: entering month `k + 1` with balance `gBal r A P k`, it emits exactly
`n - k` further rows, each with a zero extra payment and the nominal
scheduled payment. -/
theorem amortLoop_exact (r x A P : ℚ) (n : ℕ) (hr : 0 ≤ r) (hA : 0 < A)
    (hx : ¬ 0 < x) (hg : gBal r A P n = 0)
    (hgpos : ∀ k, k < n → 0 < gBal r A P k) :
    ∀ (fuel k : ℕ) (ti : ℚ) (mc : ℕ) (acc : List Row),
      k < n → n - k ≤ fuel →
      ∃ new : List Row,
        (amortLoop r x fuel (k + 1) A (gBal r A P k) ti mc acc).1
          = acc.reverse ++ new ∧
        new.length = n - k ∧
        ∀ row ∈ new, row.extraPayment = 0 ∧ row.monthlyPayment = A
  | 0, k, ti, mc, acc, hk, hfuel => by omega
  | fuel + 1, k, ti, mc, acc, hk, hfuel => by
    have hbal : 0 < gBal r A P k := hgpos k hk
    have hg1 : 0 ≤ gBal r A P (k + 1) := by
      rcases lt_or_eq_of_le (Nat.succ_le_of_lt hk) with h' | h'
      · exact (hgpos _ h').le
      · rw [show k + 1 = n from h', hg]
    have hsucc : gBal r A P (k + 1) = (1 + r) * gBal r A P k - A := rfl
    have hnc : ¬ gBal r A P k < A - gBal r A P k * r := by
      intro hlt
      rw [hsucc] at hg1
      nlinarith
    have hstep := loopStep_plain r x (k + 1) A (gBal r A P k) hx hnc
    have hrem : (loopStep r x (k + 1) A (gBal r A P k)).remainingBalance
        = gBal r A P (k + 1) := by
      rw [hstep, hsucc]
      dsimp only
      ring
    have hpayA : (loopStep r x (k + 1) A (gBal r A P k)).monthlyPayment = A := by
      rw [hstep]
    rcases lt_or_eq_of_le (Nat.succ_le_of_lt hk) with h' | h'
    · have hstop : ¬ (loopStep r x (k + 1) A (gBal r A P k)).remainingBalance ≤ 0 := by
        rw [hrem]
        exact not_le.mpr (hgpos _ h')
      obtain ⟨new, h1, h2, h3⟩ :=
        amortLoop_exact r x A P n hr hA hx hg hgpos fuel (k + 1)
          (ti + (loopStep r x (k + 1) A (gBal r A P k)).interest) (mc + 1)
          (loopStep r x (k + 1) A (gBal r A P k) :: acc) h' (by omega)
      refine ⟨loopStep r x (k + 1) A (gBal r A P k) :: new, ?_, ?_, ?_⟩
      · rw [amortLoop_succ_continue r x fuel (k + 1) A (gBal r A P k) ti mc acc hstop,
          hpayA, hrem, h1]
        simp
      · simp only [List.length_cons, h2]
        omega
      · intro row hrowmem
        rcases List.mem_cons.mp hrowmem with hh | hh
        · subst hh
          rw [hstep]
          exact ⟨rfl, rfl⟩
        · exact h3 row hh
    · have hz : (loopStep r x (k + 1) A (gBal r A P k)).remainingBalance = 0 := by
        rw [hrem, show k + 1 = n from h', hg]
      refine ⟨[loopStep r x (k + 1) A (gBal r A P k)], ?_, ?_, ?_⟩
      · rw [amortLoop_succ_stop r x fuel (k + 1) A (gBal r A P k) ti mc acc hz.le]
        simp
      · simp only [List.length_singleton]
        omega
      · intro row hrowmem
        rw [List.mem_singleton] at hrowmem
        subst hrowmem
        rw [hstep]
        exact ⟨rfl, rfl⟩

/-! ### Corollaries about `compute` -/

theorem compute_eq (P a : ℚ) (n : ℕ) (e : ℚ) :
    compute P a n e
      = amortLoop (monthlyRateOf a) (extraPaymentAmountOf P e) (n + 1199) 1
          (monthlyPaymentOf P (monthlyRateOf a) n) P 0 0 [] := rfl

theorem monthlyRateOf_nonneg (a : ℚ) (ha : 0 ≤ a) : 0 ≤ monthlyRateOf a := by
  unfold monthlyRateOf
  positivity

theorem extraPaymentAmountOf_nonneg (P e : ℚ) (hP : 0 ≤ P) (he : 0 ≤ e) :
    0 ≤ extraPaymentAmountOf P e := by
  unfold extraPaymentAmountOf
  positivity

theorem compute_shape (P a : ℚ) (n : ℕ) (e : ℚ) :
    (compute P a n e).2.1 = ((compute P a n e).1.map Row.interest).sum ∧
    (compute P a n e).2.2 = (compute P a n e).1.length ∧
    (compute P a n e).1.length ≤ n + 1199 := by
  obtain ⟨new, h1, h2, h3, h4⟩ :=
    amortLoop_shape (monthlyRateOf a) (extraPaymentAmountOf P e) (n + 1199) 1
      (monthlyPaymentOf P (monthlyRateOf a) n) P 0 0 []
  have hc : (compute P a n e).1 = new := by
    rw [compute_eq, h1]
    simp
  refine ⟨?_, ?_, ?_⟩
  · rw [compute_eq, h2, ← compute_eq, hc]
    simp
  · rw [compute_eq, h3, ← compute_eq, hc]
    simp
  · rw [hc]
    exact h4

theorem yearsSavedOf_eq_max (n mc : ℕ) :
    yearsSavedOf n mc = max 0 ((n : ℚ) / 12 - (mc : ℚ) / 12) := by
  simp only [yearsSavedOf]
  split_ifs with h
  · exact (max_eq_left (le_of_lt h)).symm
  · exact (max_eq_right (not_lt.mp h)).symm

/-! ### The claims -/

/-- **C5**: for every input satisfying the preconditions and every emitted
record, `principalPortion + interestPortion` equals that record's
`scheduledPayment` (the final-month clamp sets the scheduled payment to
`interest + principalPortion`, so the identity holds there too). -/
theorem principal_plus_interest_eq_payment (P a : ℚ) (n : ℕ) (e : ℚ)
    (hP : 0 < P) (ha : 0 ≤ a) (hn : 1 ≤ n) (he0 : 0 ≤ e) (he1 : e ≤ 100) :
    ∀ row ∈ (compute P a n e).1,
      row.principal + row.interest = row.monthlyPayment :=
  amortLoop_mem (monthlyRateOf a) (extraPaymentAmountOf P e)
    (fun row => row.principal + row.interest = row.monthlyPayment)
    (fun m pay bal => loopStep_principal_add_interest _ _ m pay bal)
    (n + 1199) 1 (monthlyPaymentOf P (monthlyRateOf a) n) P 0 0 []
    (by simp)

/-- **C7**: for every input satisfying the preconditions, the reported
`total_interest` equals the sum of the `Interest` fields over all emitted
records. -/
theorem total_interest_eq_sum (P a : ℚ) (n : ℕ) (e : ℚ)
    (hP : 0 < P) (ha : 0 ≤ a) (hn : 1 ≤ n) (he0 : 0 ≤ e) (he1 : e ≤ 100) :
    (compute P a n e).2.1 = ((compute P a n e).1.map Row.interest).sum :=
  (compute_shape P a n e).1

/-- **C8**: for every input (including precondition-violating ones) the
simulation loop terminates with a finite schedule of at most
`termMonths + 1200` records (the `range(1, period_months + 1200)` loop in
fact runs at most `termMonths + 1199` iterations). -/
theorem schedule_length_le (P a : ℚ) (n : ℕ) (e : ℚ) :
    (compute P a n e).1.length ≤ n + 1200 :=
  le_trans (compute_shape P a n e).2.2 (by omega)

/-- **C9**: for every input satisfying the preconditions, the reported
`years_saved` equals `max 0 (termMonths/12 - monthsToRepay/12)` where
`monthsToRepay` is the number of emitted records; in particular it is never
negative. -/
theorem years_saved_spec (P a : ℚ) (n : ℕ) (e : ℚ)
    (hP : 0 < P) (ha : 0 ≤ a) (hn : 1 ≤ n) (he0 : 0 ≤ e) (he1 : e ≤ 100) :
    yearsSavedOf n (compute P a n e).2.2
      = max 0 ((n : ℚ) / 12 - (((compute P a n e).1.length : ℚ)) / 12) ∧
    0 ≤ yearsSavedOf n (compute P a n e).2.2 := by
  constructor
  · rw [(compute_shape P a n e).2.1, yearsSavedOf_eq_max]
  · rw [yearsSavedOf_eq_max]
    exact le_max_left 0 _

/-- **C10**: for every input, when the final-month clamp condition
`balance < principal_payment` holds, the iteration leaves a balance of
exactly 0 (so the loop exits that same iteration: by the second part every
record other than the last has a strictly positive remaining balance), and
every record except the last carries the nominal level payment as its
`Monthly Payment`. -/
theorem clamp_only_last_iteration (P a : ℚ) (n : ℕ) (e : ℚ) :
    (∀ (m : ℕ) (pay bal : ℚ),
        bal < pay - bal * monthlyRateOf a →
        (loopStep (monthlyRateOf a) (extraPaymentAmountOf P e)
            m pay bal).remainingBalance = 0) ∧
    ∀ row ∈ (compute P a n e).1.dropLast,
      0 < row.remainingBalance ∧
        row.monthlyPayment = monthlyPaymentOf P (monthlyRateOf a) n := by
  constructor
  · intro m pay bal hc
    exact (loopStep_clamp _ _ m pay bal hc).1
  · intro row hrow
    constructor
    · exact amortLoop_dropLast_pos (monthlyRateOf a) (extraPaymentAmountOf P e)
        (n + 1199) 1 (monthlyPaymentOf P (monthlyRateOf a) n) P 0 0 []
        (by simp) row hrow
    · exact amortLoop_nominal (monthlyRateOf a) (extraPaymentAmountOf P e)
        (monthlyPaymentOf P (monthlyRateOf a) n)
        (n + 1199) 1 P 0 0 [] (by simp) row hrow

/-- **C3**: for every input satisfying the preconditions and every emitted
record, the extra-payment step applies exactly when the record's month is a
multiple of 12, the extra amount is positive and the post-scheduled-payment
balance (`remainingBalance + extraPayment`) is positive; it then pays the
minimum of the extra amount and that balance, and otherwise the record's
extra payment is 0.  In particular a nonzero extra payment only occurs on a
month that is a multiple of 12. -/
theorem extra_payment_step_charact (P a : ℚ) (n : ℕ) (e : ℚ)
    (hP : 0 < P) (ha : 0 ≤ a) (hn : 1 ≤ n) (he0 : 0 ≤ e) (he1 : e ≤ 100) :
    ∀ row ∈ (compute P a n e).1,
      (row.month % 12 = 0 ∧ 0 < extraPaymentAmountOf P e ∧
          0 < row.remainingBalance + row.extraPayment →
        row.extraPayment
          = min (extraPaymentAmountOf P e)
              (row.remainingBalance + row.extraPayment)) ∧
      (¬ (row.month % 12 = 0 ∧ 0 < extraPaymentAmountOf P e ∧
          0 < row.remainingBalance + row.extraPayment) →
        row.extraPayment = 0) ∧
      (row.extraPayment ≠ 0 → row.month % 12 = 0) := by
  refine amortLoop_mem (monthlyRateOf a) (extraPaymentAmountOf P e)
    (fun row =>
      (row.month % 12 = 0 ∧ 0 < extraPaymentAmountOf P e ∧
          0 < row.remainingBalance + row.extraPayment →
        row.extraPayment
          = min (extraPaymentAmountOf P e)
              (row.remainingBalance + row.extraPayment)) ∧
      (¬ (row.month % 12 = 0 ∧ 0 < extraPaymentAmountOf P e ∧
          0 < row.remainingBalance + row.extraPayment) →
        row.extraPayment = 0) ∧
      (row.extraPayment ≠ 0 → row.month % 12 = 0))
    ?_ (n + 1199) 1 (monthlyPaymentOf P (monthlyRateOf a) n) P 0 0 [] (by simp)
  intro m pay bal
  have hmm := loopStep_month (monthlyRateOf a) (extraPaymentAmountOf P e) m pay bal
  have hx := loopStep_extra (monthlyRateOf a) (extraPaymentAmountOf P e) m pay bal
  rw [hmm]
  refine ⟨fun hc => ?_, fun hc => ?_, fun hne => ?_⟩
  · conv_lhs => rw [hx]
    rw [if_pos hc]
  · conv_lhs => rw [hx]
    rw [if_neg hc]
  · by_contra hm12
    exact hne (by rw [hx, if_neg (fun hc => hm12 hc.1)])

/-- **C4**: for every input satisfying the preconditions, the sequence of
`Remaining Balance` values over the emitted records, starting from the
initial principal, is monotonically non-increasing. -/
theorem balance_monotone (P a : ℚ) (n : ℕ) (e : ℚ)
    (hP : 0 < P) (ha : 0 ≤ a) (hn : 1 ≤ n) (he0 : 0 ≤ e) (he1 : e ≤ 100) :
    List.Pairwise (fun b c => c ≤ b)
      (P :: (compute P a n e).1.map Row.remainingBalance) := by
  have hr := monthlyRateOf_nonneg a ha
  obtain ⟨new, h1, h2⟩ :=
    amortLoop_chain (monthlyRateOf a) (extraPaymentAmountOf P e) hr
      (n + 1199) 1 (monthlyPaymentOf P (monthlyRateOf a) n) P 0 0 []
      hP.le (monthlyPaymentOf_ge P (monthlyRateOf a) n hP hr (by omega))
  have hc : (compute P a n e).1 = new := by
    rw [compute_eq, h1]
    simp
  rw [hc]
  exact List.chain_iff_pairwise.mp h2

/-- **C1**: for every input satisfying the preconditions, the schedule is
non-empty, the last record's remaining balance is exactly 0, and no earlier
record has remaining balance 0 (they are all strictly positive). -/
theorem last_balance_zero (P a : ℚ) (n : ℕ) (e : ℚ)
    (hP : 0 < P) (ha : 0 ≤ a) (hn : 1 ≤ n) (he0 : 0 ≤ e) (he1 : e ≤ 100) :
    (compute P a n e).1 ≠ [] ∧
      (∀ hne : (compute P a n e).1 ≠ [],
        ((compute P a n e).1.getLast hne).remainingBalance = 0) ∧
      ∀ row ∈ (compute P a n e).1.dropLast, row.remainingBalance ≠ 0 := by
  have hr := monthlyRateOf_nonneg a ha
  have hn' : 0 < n := by omega
  have hA := monthlyPaymentOf_pos P (monthlyRateOf a) n hP hr hn'
  have hg := gBal_payment_eq_zero P (monthlyRateOf a) n hr hn'
  obtain ⟨new, h1, h2, h3⟩ :=
    amortLoop_payoff (monthlyRateOf a) (extraPaymentAmountOf P e)
      (monthlyPaymentOf P (monthlyRateOf a) n) P n hr hA hg
      (n + 1199) 0 P 0 0 [] (by omega) (by omega) hP (le_of_eq rfl)
  have hc : (compute P a n e).1 = new := by
    rw [compute_eq]
    simpa using h1
  refine ⟨by rw [hc]; exact h2, ?_, ?_⟩
  · rw [hc]
    exact h3
  · intro row hrow
    refine (ne_of_lt (amortLoop_dropLast_pos (monthlyRateOf a)
      (extraPaymentAmountOf P e) (n + 1199) 1
      (monthlyPaymentOf P (monthlyRateOf a) n) P 0 0 [] (by simp) row ?_)).symm
    exact hrow

/-- **C2**: for every input satisfying the preconditions with
`yearlyExtraPercent = 0`, the engine emits exactly `termMonths` records (no
early payoff, no cap exhaustion) and every record's extra payment is 0. -/
theorem no_extra_exact_count (P a : ℚ) (n : ℕ)
    (hP : 0 < P) (ha : 0 ≤ a) (hn : 1 ≤ n) :
    (compute P a n 0).1.length = n ∧
      ∀ row ∈ (compute P a n 0).1, row.extraPayment = 0 := by
  have hr := monthlyRateOf_nonneg a ha
  have hn' : 0 < n := hn
  have hA := monthlyPaymentOf_pos P (monthlyRateOf a) n hP hr hn'
  have hg := gBal_payment_eq_zero P (monthlyRateOf a) n hr hn'
  have hgpos := gBal_pos_of_lt (monthlyRateOf a)
    (monthlyPaymentOf P (monthlyRateOf a) n) P n hr hA hg
  have hx : ¬ 0 < extraPaymentAmountOf P 0 := by norm_num [extraPaymentAmountOf]
  obtain ⟨new, h1, h2, h3⟩ :=
    amortLoop_exact (monthlyRateOf a) (extraPaymentAmountOf P 0)
      (monthlyPaymentOf P (monthlyRateOf a) n) P n hr hA hx hg hgpos
      (n + 1199) 0 0 0 [] (by omega) (by omega)
  rw [show gBal (monthlyRateOf a) (monthlyPaymentOf P (monthlyRateOf a) n) P 0 = P
    from rfl] at h1
  have hc : (compute P a n 0).1 = new := by
    rw [compute_eq]
    simpa using h1
  constructor
  · rw [hc, h2]
    omega
  · intro row hrow
    rw [hc] at hrow
    exact (h3 row hrow).1

/-- **C6 (amended)**: with `annualRatePercent = 0`, every emitted record has
`interestPortion = 0` and `principalPortion = scheduledPayment`; when in
addition `yearlyExtraPercent = 0`, the schedule has exactly `termMonths`
records and every scheduled payment is `principal / termMonths`.  (With a
positive extra percent the loan can be paid off early, so the record count
can be smaller than `termMonths` — see the counterexample.) -/
theorem zero_rate_schedule (P : ℚ) (n : ℕ) (e : ℚ)
    (hP : 0 < P) (hn : 1 ≤ n) (he0 : 0 ≤ e) (he1 : e ≤ 100) :
    (∀ row ∈ (compute P 0 n e).1,
        row.interest = 0 ∧ row.principal = row.monthlyPayment) ∧
      (e = 0 → (compute P 0 n e).1.length = n ∧
        ∀ row ∈ (compute P 0 n e).1, row.monthlyPayment = P / n) := by
  have hr0 : monthlyRateOf 0 = 0 := by norm_num [monthlyRateOf]
  constructor
  · refine amortLoop_mem (monthlyRateOf 0) (extraPaymentAmountOf P e)
      (fun row => row.interest = 0 ∧ row.principal = row.monthlyPayment) ?_
      (n + 1199) 1 (monthlyPaymentOf P (monthlyRateOf 0) n) P 0 0 [] (by simp)
    intro m pay bal
    have hi := loopStep_interest (monthlyRateOf 0) (extraPaymentAmountOf P e) m pay bal
    have hi0 : (loopStep (monthlyRateOf 0) (extraPaymentAmountOf P e)
        m pay bal).interest = 0 := by
      rw [hi, hr0, mul_zero]
    have hsum := loopStep_principal_add_interest (monthlyRateOf 0)
      (extraPaymentAmountOf P e) m pay bal
    exact ⟨hi0, by linarith⟩
  · intro he
    subst he
    have hr := monthlyRateOf_nonneg 0 (le_refl 0)
    have hA := monthlyPaymentOf_pos P (monthlyRateOf 0) n hP hr hn
    have hg := gBal_payment_eq_zero P (monthlyRateOf 0) n hr hn
    have hgpos := gBal_pos_of_lt (monthlyRateOf 0)
      (monthlyPaymentOf P (monthlyRateOf 0) n) P n hr hA hg
    have hx : ¬ 0 < extraPaymentAmountOf P 0 := by norm_num [extraPaymentAmountOf]
    obtain ⟨new, h1, h2, h3⟩ :=
      amortLoop_exact (monthlyRateOf 0) (extraPaymentAmountOf P 0)
        (monthlyPaymentOf P (monthlyRateOf 0) n) P n hr hA hx hg hgpos
        (n + 1199) 0 0 0 [] (by omega) (by omega)
    rw [show gBal (monthlyRateOf 0) (monthlyPaymentOf P (monthlyRateOf 0) n) P 0 = P
      from rfl] at h1
    have hc : (compute P 0 n 0).1 = new := by
      rw [compute_eq]
      simpa using h1
    have hApn : monthlyPaymentOf P (monthlyRateOf 0) n = P / n := by
      rw [hr0]
      simp [monthlyPaymentOf]
    constructor
    · rw [hc, h2]
      omega
    · intro row hrow
      rw [hc] at hrow
      rw [← hApn]
      exact (h3 row hrow).2

/-- A step whose month is not a multiple of 12 and whose clamp does not fire
is also "plain". -/
theorem loopStep_plain_month (r x : ℚ) (m : ℕ) (pay bal : ℚ)
    (hm : ¬ m % 12 = 0) (hnc : ¬ bal < pay - bal * r) :
    loopStep r x m pay bal
      = ⟨m, pay, pay - bal * r, bal * r, 0, bal - (pay - bal * r)⟩ := by
  simp [loopStep, hm, hnc]

/-- Concrete evaluation helper: at rate 0, a stretch of `j` months none of
which is a multiple of 12 and whose payments stay strictly under the balance
runs straight through, paying `A` each month. -/
theorem amortLoop_zero_rate_run (x A : ℚ) (hA : 0 ≤ A) :
    ∀ (j fuel month : ℕ) (bal ti : ℚ) (mc : ℕ) (acc : List Row),
      j ≤ fuel →
      (∀ i : ℕ, i < j → ¬ (month + i) % 12 = 0) →
      (j : ℚ) * A < bal →
      ∃ rows : List Row, rows.length = j ∧
        amortLoop 0 x fuel month A bal ti mc acc
          = amortLoop 0 x (fuel - j) (month + j) A (bal - (j : ℚ) * A) ti
              (mc + j) (rows ++ acc)
  | 0, fuel, month, bal, ti, mc, acc, _, _, _ => ⟨[], rfl, by norm_num⟩
  | j + 1, fuel, month, bal, ti, mc, acc, hfuel, hmonths, hbal => by
    obtain ⟨f, rfl⟩ : ∃ f, fuel = f + 1 := ⟨fuel - 1, by omega⟩
    have hjA : (0 : ℚ) ≤ (j : ℚ) * A :=
      mul_nonneg (Nat.cast_nonneg j) hA
    have hbal' : (j : ℚ) * A + A < bal := by
      push_cast at hbal
      linarith
    have hm0 : ¬ month % 12 = 0 := by
      have := hmonths 0 (by omega)
      simpa using this
    have hnc : ¬ bal < A - bal * 0 := by
      intro hlt
      rw [mul_zero, sub_zero] at hlt
      linarith
    have hstep := loopStep_plain_month 0 x month A bal hm0 hnc
    have hrem : (loopStep 0 x month A bal).remainingBalance = bal - A := by
      rw [hstep]
      show bal - (A - bal * 0) = bal - A
      ring
    have hint : (loopStep 0 x month A bal).interest = 0 := by
      rw [hstep]
      show bal * 0 = 0
      ring
    have hpay : (loopStep 0 x month A bal).monthlyPayment = A := by
      rw [hstep]
    have hstop : ¬ (loopStep 0 x month A bal).remainingBalance ≤ 0 := by
      rw [hrem]
      intro hle
      linarith
    obtain ⟨rows', hlen', hrun'⟩ :=
      amortLoop_zero_rate_run x A hA j f (month + 1) (bal - A) ti (mc + 1)
        (loopStep 0 x month A bal :: acc) (by omega)
        (fun i hi => by
          have := hmonths (i + 1) (by omega)
          rw [show month + 1 + i = month + (i + 1) from by omega]
          exact this)
        (by linarith)
    refine ⟨rows' ++ [loopStep 0 x month A bal], by simp [hlen'], ?_⟩
    rw [amortLoop_succ_continue 0 x f month A bal ti mc acc hstop,
      hpay, hrem, hint, add_zero, hrun']
    rw [show f - j = f + 1 - (j + 1) from by omega,
      show month + 1 + j = month + (j + 1) from by omega,
      show mc + 1 + j = mc + (j + 1) from by omega,
      show bal - A - (j : ℚ) * A = bal - ((j + 1 : ℕ) : ℚ) * A from by
        push_cast
        ring]
    rw [List.append_assoc]
    rfl

/-- **C6 counterexample**: the input `principal = 1300`, `rate = 0`,
`termMonths = 13`, `yearlyExtraPercent = 10` satisfies all preconditions and
has `annualRatePercent = 0`, yet the engine emits 12 records, not
`termMonths = 13` — the yearly extra payment of 130 pays the loan off at
month 12. -/
theorem zero_rate_extra_counterexample :
    (compute 1300 0 13 10).1.length = 12 ∧ (12 : ℕ) ≠ 13 := by
  refine ⟨?_, by norm_num⟩
  have hr0 : monthlyRateOf 0 = 0 := by norm_num [monthlyRateOf]
  have hA : monthlyPaymentOf 1300 (monthlyRateOf 0) 13 = 100 := by
    rw [hr0]
    norm_num [monthlyPaymentOf]
  have hx : extraPaymentAmountOf 1300 10 = 130 := by
    norm_num [extraPaymentAmountOf]
  have hcomp : compute 1300 0 13 10 = amortLoop 0 130 (13 + 1199) 1 100 1300 0 0 [] := by
    rw [compute_eq, hA, hx, hr0]
  obtain ⟨rows, hlen, hrun⟩ :=
    amortLoop_zero_rate_run 130 100 (by norm_num) 11 (13 + 1199) 1 1300 0 0 []
      (by norm_num) (fun i hi => by omega) (by push_cast; norm_num)
  rw [hcomp, hrun,
    show (1300 : ℚ) - ((11 : ℕ) : ℚ) * 100 = 200 from by push_cast; norm_num,
    show (13 + 1199 - 11 : ℕ) = 1200 + 1 from by norm_num,
    show (1 + 11 : ℕ) = 12 from by norm_num]
  have hstep : loopStep 0 130 12 100 200 = ⟨12, 100, 100, 0, 100, 0⟩ := by
    simp only [loopStep]
    norm_num
  have hstop : (loopStep 0 130 12 100 200).remainingBalance ≤ 0 := by
    rw [hstep]
  rw [amortLoop_succ_stop 0 130 1200 12 100 200 0 (0 + 11) (rows ++ []) hstop]
  simp [hlen]

/-- Concrete evaluation: a 1-month interest-free loan of 100 produces a
single row paying everything at month 1. -/
theorem compute_simple :
    compute 100 0 1 0 = ([⟨1, 100, 100, 0, 0, 0⟩], 0, 1) := by
  have hr0 : monthlyRateOf 0 = 0 := by norm_num [monthlyRateOf]
  have hA : monthlyPaymentOf 100 (monthlyRateOf 0) 1 = 100 := by
    rw [hr0]
    norm_num [monthlyPaymentOf]
  have hx : extraPaymentAmountOf 100 0 = 0 := by
    norm_num [extraPaymentAmountOf]
  have hstep : loopStep 0 0 1 100 100 = ⟨1, 100, 100, 0, 0, 0⟩ := by
    simp only [loopStep]
    norm_num
  have hstop : (loopStep 0 0 1 100 100).remainingBalance ≤ 0 := by
    rw [hstep]
  rw [compute_eq, hA, hx, hr0,
    show (1 + 1199 : ℕ) = 1199 + 1 from by norm_num,
    amortLoop_succ_stop 0 0 1199 1 100 100 0 0 [] hstop, hstep]
  simp

/-! ### Witnesses: the claim theorems applied at concrete inputs -/

/-- Witness for **C1** at `(100, 0, 1, 0)`. -/
theorem last_balance_zero_witness :
    (compute 100 0 1 0).1 ≠ [] ∧
      (∀ hne : (compute 100 0 1 0).1 ≠ [],
        ((compute 100 0 1 0).1.getLast hne).remainingBalance = 0) ∧
      ∀ row ∈ (compute 100 0 1 0).1.dropLast, row.remainingBalance ≠ 0 :=
  last_balance_zero 100 0 1 0 (by norm_num) (by norm_num) (by norm_num)
    (by norm_num) (by norm_num)

/-- Witness for **C2** at `(100, 0, 1, 0)`. -/
theorem no_extra_exact_count_witness :
    (compute 100 0 1 0).1.length = 1 ∧
      ∀ row ∈ (compute 100 0 1 0).1, row.extraPayment = 0 :=
  no_extra_exact_count 100 0 1 (by norm_num) (by norm_num) (by norm_num)

/-- Witness for **C3** at `(100, 0, 1, 0)` and its single row: month 1 is not
a multiple of 12, so the extra payment is 0. -/
theorem extra_payment_step_charact_witness :
    (⟨1, 100, 100, 0, 0, 0⟩ : Row).extraPayment = 0 :=
  (extra_payment_step_charact 100 0 1 0 (by norm_num) (by norm_num)
      (by norm_num) (by norm_num) (by norm_num)
      ⟨1, 100, 100, 0, 0, 0⟩
      (by rw [compute_simple]; exact List.mem_singleton_self _)).2.1
    (by norm_num)

/-- Witness for **C4** at `(100, 0, 1, 0)`. -/
theorem balance_monotone_witness :
    List.Pairwise (fun b c => c ≤ b)
      (100 :: (compute 100 0 1 0).1.map Row.remainingBalance) :=
  balance_monotone 100 0 1 0 (by norm_num) (by norm_num) (by norm_num)
    (by norm_num) (by norm_num)

/-- Witness for **C5** at `(100, 0, 1, 0)` and its single row. -/
theorem principal_plus_interest_eq_payment_witness :
    (⟨1, 100, 100, 0, 0, 0⟩ : Row).principal
        + (⟨1, 100, 100, 0, 0, 0⟩ : Row).interest
      = (⟨1, 100, 100, 0, 0, 0⟩ : Row).monthlyPayment :=
  principal_plus_interest_eq_payment 100 0 1 0 (by norm_num) (by norm_num)
    (by norm_num) (by norm_num) (by norm_num)
    ⟨1, 100, 100, 0, 0, 0⟩
    (by rw [compute_simple]; exact List.mem_singleton_self _)

/-- Witness for **C6 (amended)** at `(100, 0, 1, 0)` and its single row. -/
theorem zero_rate_schedule_witness :
    (⟨1, 100, 100, 0, 0, 0⟩ : Row).interest = 0 ∧
      (compute 100 0 1 0).1.length = 1 :=
  ⟨((zero_rate_schedule 100 1 0 (by norm_num) (by norm_num) (by norm_num)
        (by norm_num)).1 ⟨1, 100, 100, 0, 0, 0⟩
      (by rw [compute_simple]; exact List.mem_singleton_self _)).1,
   ((zero_rate_schedule 100 1 0 (by norm_num) (by norm_num) (by norm_num)
        (by norm_num)).2 rfl).1⟩

/-- Witness for **C7** at `(100, 0, 1, 0)`. -/
theorem total_interest_eq_sum_witness :
    (compute 100 0 1 0).2.1
      = ((compute 100 0 1 0).1.map Row.interest).sum :=
  total_interest_eq_sum 100 0 1 0 (by norm_num) (by norm_num) (by norm_num)
    (by norm_num) (by norm_num)

/-- Witness for **C9** at `(100, 0, 1, 0)`. -/
theorem years_saved_spec_witness :
    yearsSavedOf 1 (compute 100 0 1 0).2.2
      = max 0 ((1 : ℚ) / 12 - (((compute 100 0 1 0).1.length : ℚ)) / 12) ∧
      0 ≤ yearsSavedOf 1 (compute 100 0 1 0).2.2 :=
  years_saved_spec 100 0 1 0 (by norm_num) (by norm_num) (by norm_num)
    (by norm_num) (by norm_num)

end LoanCalc
